import Mathlib

/-!
Verification of the incremental kline download engine
(`scripts/download_binance.py`) of the intelligent-trading-bot repository.

The development shallowly embeds the script's data flow:

* time instants are modelled as `Int` (seconds since the Unix epoch);
* a kline row is a `Bar` (timestamp key plus an opaque payload value);
* the merge helper `klines_to_df` lives in `common/utils`, whose source is
  not part of the snapshot, so it is modelled from the specification;
* the year-by-year fetch loop of `get_binance_historical_klines` is embedded
  as a well-founded recursion producing the trace of fetch iterations
  together with the accumulated table;
* the resume-point computation of `main` (lines 108-123) is embedded over a
  small data-frame model that keeps track of column names and of whether a
  value went through `pd.to_datetime`;
* the job loop of `main` (lines 85-133) is embedded as a function from the
  configured data sources to the list of externally visible events.
-/

namespace ITB

/-- Duration constant of the loop: `timedelta(days=365)` in seconds. -/
def oneYear : Int := 365 * 86400

/-- Duration constant of the cursor step-back: `timedelta(days=1)` in seconds. -/
def oneDay : Int := 86400

/-- Posix seconds of `datetime(2017, 1, 1)`, the epoch floor used when no
file exists (line 112). -/
def epoch2017 : Int := 1483228800

/-- One kline row: the open timestamp (the key) and an opaque payload
standing for the remaining OHLCV fields. -/
structure Bar where
  ts : Int
  v : Int
deriving DecidableEq, Repr

/-- Strict ordering of a table by timestamp (the `SeriesTable` invariant). -/
def TsSorted (l : List Bar) : Prop :=
  l.Pairwise (fun a b => a.ts < b.ts)

instance : DecidablePred TsSorted := fun l =>
  inferInstanceAs (Decidable (l.Pairwise _))

/-- Modelled from the spec: `klines_to_df` (in `common/utils`, not part of
the source snapshot) merges a freshly fetched, time-ordered batch into the
existing table.  Per the spec contract (section 4.3): rows with a timestamp
present in both sets take the batch's version, rows of the existing table
older than the batch's earliest timestamp are preserved unchanged, and the
result stays strictly ordered by timestamp. -/
def klines_to_df (klines : List Bar) (df : List Bar) : List Bar :=
  match klines with
  | [] => df
  | b :: _ => df.filter (fun r => r.ts < b.ts) ++ klines

/-- Timestamp lookup in a table (the row keyed by `t`). -/
def rowAt (l : List Bar) (t : Int) : Option Bar :=
  l.find? (fun r => r.ts == t)

/-- Value of one data-frame cell: the time instant it denotes together with
a flag recording whether it went through `pd.to_datetime` (line 118). -/
structure Val where
  parsed : Bool
  t : Int
deriving DecidableEq, Repr

/-- Embedding of `pd.to_datetime(..., format='ISO8601')`: the textual value
becomes a datetime denoting the same instant. -/
def to_datetime (v : Val) : Val :=
  ⟨true, v.t⟩

/-- Column-level view of the loaded CSV (`pd.read_csv`, line 117): a list of
named columns. -/
structure Frame where
  cols : List (String × List Val)
deriving DecidableEq, Repr

/-- Column selection `df[c]`; `none` models a `KeyError`. -/
def Frame.getCol (f : Frame) (c : String) : Option (List Val) :=
  (f.cols.find? (fun p => p.1 == c)).map Prod.snd

/-- Column assignment `df[c] = vs` for a column that exists. -/
def Frame.setCol (f : Frame) (c : String) (vs : List Val) : Frame :=
  ⟨f.cols.map (fun p => if p.1 == c then (p.1, vs) else p)⟩

/-- Errors the embedded script fragments can raise. -/
inductive KlineErr
  | indexError
  | keyError
  | fetchError
deriving DecidableEq, Repr

/-- Embedding of `.iloc[-5]` (line 121): the 5th-from-last element, raising
`IndexError` when the column has fewer than 5 rows. -/
def ilocNeg5 (vs : List Val) : Except KlineErr Val :=
  if h : 5 ≤ vs.length then
    .ok (vs.get ⟨vs.length - 5, by omega⟩)
  else
    .error .indexError

/-- Embedding of line 118, `df[time_column] = pd.to_datetime(df[time_column],
format='ISO8601')`: reading a missing column raises `KeyError`, otherwise the
column is replaced by its parsed values. -/
def parse_time_column (f : Frame) (time_column : String) : Except KlineErr Frame :=
  match f.getCol time_column with
  | none => .error .keyError
  | some vs => .ok (f.setCol time_column (vs.map to_datetime))

/-- Embedding of the resume-point computation of `main` (lines 108-121):
with no existing file, `oldest_point = datetime(2017, 1, 1)`; otherwise the
file is loaded, its `time_column` is datetime-parsed, and
`oldest_point = df["timestamp"].iloc[-5]` with the column name hard-coded. -/
def oldest_point (time_column : String) (file : Option Frame) : Except KlineErr Val :=
  match file with
  | none => .ok ⟨true, epoch2017⟩
  | some f =>
    match parse_time_column f time_column with
    | .error e => .error e
    | .ok f2 =>
      match f2.getCol "timestamp" with
      | none => .error .keyError
      | some vs => ilocNeg5 vs

/-- One iteration of the fetch loop of `get_binance_historical_klines`
(lines 155-180): the window bounds the iteration works with
(`start_point_dt`, `end_dt`; `none` is the open final window) and the start
actually passed to `client.get_historical_klines` (`start_str`, line 171). -/
structure Iter where
  win_start : Int
  win_end : Option Int
  req_start : Int
deriving DecidableEq, Repr

/-- Embedding of the `while more_data_to_fetch` loop (lines 153-180).
`fetch` is the remote oracle (`client.get_historical_klines`), taking the
requested start and optional end and returning a batch of rows.  The result
is the list of performed iterations together with the accumulated table.
Each bounded iteration requests `[start_str, cursor + oneYear)` — note that
the code passes the unchanged `start_str` argument, not the cursor — merges
the batch via `klines_to_df`, and steps the cursor to
`end_dt - timedelta(days=1)` (line 180). -/
def fetchMerge (fetch : Int → Option Int → List Bar) (start_str now : Int)
    (cursor : Int) (df : List Bar) : List Iter × List Bar :=
  if h : now - cursor > oneYear then
    let r := fetchMerge fetch start_str now (cursor + oneYear - oneDay)
      (klines_to_df (fetch start_str (some (cursor + oneYear))) df)
    (⟨cursor, some (cursor + oneYear), start_str⟩ :: r.1, r.2)
  else
    ([⟨cursor, none, start_str⟩], klines_to_df (fetch start_str none) df)
termination_by (now - cursor).toNat
decreasing_by
  simp only [oneYear, oneDay] at h ⊢
  omega

/-- Embedding of `get_binance_historical_klines` (lines 141-187): run the
fetch loop starting from the parsed `start_str`, then drop the final row
(`df = df.iloc[:-1]`, line 183); the returned table is what `df.to_csv`
persists (line 185). -/
def get_binance_historical_klines (fetch : Int → Option Int → List Bar)
    (start_str now : Int) (df : List Bar) : List Bar :=
  ((fetchMerge fetch start_str now start_str df).2).dropLast

/-- One configured data source (an element of `data_sources`, line 85). -/
structure DataSource where
  folder : Option String
deriving DecidableEq, Repr

/-- Externally visible outcome of processing one data source in `main`'s
loop. -/
inductive JobEvent
  | skippedNoFolder
  | wrote (folder : String) (table : List Bar)
  | fetchErrorAbort (folder : String)
  | resumeErrorAbort (folder : String)
deriving DecidableEq, Repr

/-- Embedding of the `for ds in data_sources` loop of `main` (lines 85-133).
`raises q` says whether the remote client raises an exception while
processing folder `q` (`get_klines` or the historical fetch); `fileOf q` is
the existing CSV (column view) and `rowsOf q` the same CSV as rows; `fetch q`
is the remote oracle for folder `q`.  A missing `folder` key logs and
`continue`s (lines 88-90).  An uncaught exception — a remote error, or an
`IndexError`/`KeyError` from the resume computation — propagates out of
`main` and ends the whole run, producing no file for that job. -/
def runMain (time_column : String) (raises : String → Bool)
    (fileOf : String → Option Frame) (rowsOf : String → List Bar)
    (fetch : String → Int → Option Int → List Bar) (now : Int) :
    List DataSource → List JobEvent
  | [] => []
  | j :: rest =>
    match j.folder with
    | none => .skippedNoFolder :: runMain time_column raises fileOf rowsOf fetch now rest
    | some q =>
      if raises q then [.fetchErrorAbort q]
      else
        match oldest_point time_column (fileOf q) with
        | .error _ => [.resumeErrorAbort q]
        | .ok v =>
          .wrote q (get_binance_historical_klines (fetch q) v.t now (rowsOf q)) ::
            runMain time_column raises fileOf rowsOf fetch now rest

/-- Timestamp of `.iloc[-5]` on the row view of a table with at least five
rows: the resume instant a later run computes from a persisted table. -/
def resume_ts (df : List Bar) (h : 5 ≤ df.length) : Int :=
  (df.get ⟨df.length - 5, by omega⟩).ts

/-- Sample 100-row timestamp column (raw, unparsed values 0..99) used to
instantiate theorems on concrete data. -/
def sampleCol100 : List Val :=
  (List.range 100).map fun i => ⟨false, (i : Int)⟩

/-- Sample frame holding `sampleCol100` under the column name
`"timestamp"`. -/
def sampleFrame100 : Frame :=
  ⟨[("timestamp", sampleCol100)]⟩

/-! ### Helper lemmas about strictly sorted tables -/

lemma tsSorted_cons_lt {a : Bar} {l : List Bar} (h : TsSorted (a :: l)) :
    ∀ x ∈ l, a.ts < x.ts :=
  (List.pairwise_cons.mp h).1

lemma tsSorted_tail {a : Bar} {l : List Bar} (h : TsSorted (a :: l)) : TsSorted l :=
  (List.pairwise_cons.mp h).2

lemma tsSorted_getElem_lt {R : List Bar} (hR : TsSorted R) {i j : Nat}
    (hi : i < R.length) (hj : j < R.length) (hij : i < j) :
    R[i].ts < R[j].ts :=
  List.pairwise_iff_getElem.mp hR i j hi hj hij

lemma filter_ge_sorted :
    ∀ (R : List Bar) (_ : TsSorted R) (i : Nat) (hi : i < R.length),
      R.filter (fun x => R[i].ts ≤ x.ts) = R.drop i := by
  intro R
  induction R with
  | nil => intro _ i hi; simp at hi
  | cons a R ih =>
    intro hs i hi
    cases i with
    | zero =>
      simp only [List.getElem_cons_zero, List.drop_zero, List.filter_cons]
      rw [if_pos (by simp), List.filter_eq_self.mpr]
      intro x hx
      exact decide_eq_true (le_of_lt (tsSorted_cons_lt hs x hx))
    | succ i =>
      have hi' : i < R.length := by simpa using hi
      have hlt : a.ts < R[i].ts :=
        tsSorted_cons_lt hs _ (List.getElem_mem hi')
      simp only [List.getElem_cons_succ, List.filter_cons, List.drop_succ_cons]
      rw [if_neg (by simpa using not_le.mpr hlt)]
      exact ih (tsSorted_tail hs) i hi'

lemma filter_lt_sorted :
    ∀ (R : List Bar) (_ : TsSorted R) (i : Nat) (hi : i < R.length),
      R.filter (fun x => x.ts < R[i].ts) = R.take i := by
  intro R
  induction R with
  | nil => intro _ i hi; simp at hi
  | cons a R ih =>
    intro hs i hi
    cases i with
    | zero =>
      simp only [List.getElem_cons_zero, List.take_zero]
      rw [List.filter_eq_nil_iff.mpr]
      intro x hx
      rcases List.mem_cons.mp hx with rfl | hx
      · simp
      · simpa using not_lt.mpr (le_of_lt (tsSorted_cons_lt hs x hx))
    | succ i =>
      have hi' : i < R.length := by simpa using hi
      have hlt : a.ts < R[i].ts :=
        tsSorted_cons_lt hs _ (List.getElem_mem hi')
      simp only [List.getElem_cons_succ, List.filter_cons, List.take_succ_cons]
      rw [if_pos (decide_eq_true hlt)]
      rw [ih (tsSorted_tail hs) i hi']

/-! ### Helper lemmas about the merge -/

lemma klines_to_df_sorted {df batch : List Bar} (hdf : TsSorted df) (hb : TsSorted batch) :
    TsSorted (klines_to_df batch df) := by
  cases batch with
  | nil => simpa [klines_to_df] using hdf
  | cons b bs =>
    simp only [klines_to_df]
    rw [TsSorted, List.pairwise_append]
    refine ⟨hdf.filter _, hb, ?_⟩
    intro x hx y hy
    have hxb : x.ts < b.ts := by
      have := List.of_mem_filter hx
      simpa using this
    have hby : b.ts ≤ y.ts := by
      rcases List.mem_cons.mp hy with rfl | hy
      · exact le_refl _
      · exact le_of_lt (tsSorted_cons_lt hb y hy)
    exact lt_of_lt_of_le hxb hby

lemma klines_to_df_rowAt_batch {df batch : List Bar} (hb : TsSorted batch)
    {t : Int} (ht : ∃ r ∈ batch, r.ts = t) :
    rowAt (klines_to_df batch df) t = rowAt batch t := by
  cases batch with
  | nil => rcases ht with ⟨r, hr, _⟩; simp at hr
  | cons b bs =>
    have hbt : b.ts ≤ t := by
      rcases ht with ⟨r, hr, rfl⟩
      rcases List.mem_cons.mp hr with rfl | hr
      · exact le_refl _
      · exact le_of_lt (tsSorted_cons_lt hb r hr)
    simp only [klines_to_df, rowAt, List.find?_append]
    rw [List.find?_eq_none.mpr, Option.none_or]
    intro x hx
    have hxb : x.ts < b.ts := by
      have := List.of_mem_filter hx
      simpa using this
    simp only [beq_iff_eq]
    exact ne_of_lt (lt_of_lt_of_le hxb hbt)

lemma klines_to_df_preserves {df batch : List Bar} {r : Bar} (hr : r ∈ df)
    (hlt : ∀ b ∈ batch, r.ts < b.ts) : r ∈ klines_to_df batch df := by
  cases batch with
  | nil => simpa [klines_to_df] using hr
  | cons b bs =>
    simp only [klines_to_df]
    refine List.mem_append_left _ (List.mem_filter.mpr ⟨hr, ?_⟩)
    exact decide_eq_true (hlt b (List.mem_cons_self b bs))

lemma klines_to_df_idem {batch df : List Bar} (hb : TsSorted batch) :
    klines_to_df batch (klines_to_df batch df) = klines_to_df batch df := by
  cases batch with
  | nil => rfl
  | cons b bs =>
    have h2 : List.filter (fun x => decide (x.ts < b.ts)) (b :: bs) = [] := by
      rw [List.filter_eq_nil_iff]
      intro x hx
      rcases List.mem_cons.mp hx with rfl | hx
      · simp
      · simpa using not_lt.mpr (le_of_lt (tsSorted_cons_lt hb x hx))
    simp only [klines_to_df, List.filter_append, List.filter_filter, Bool.and_self, h2,
      List.append_nil]

lemma filter_lt_dropLast (R : List Bar) (hne : R ≠ []) (c : Int)
    (hc : ¬ (R.getLast hne).ts < c) :
    R.dropLast.filter (fun x => decide (x.ts < c)) =
      R.filter (fun x => decide (x.ts < c)) := by
  conv_rhs => rw [← List.dropLast_append_getLast hne]
  rw [List.filter_append]
  simp [hc]

lemma two_run_merge (R : List Bar) (hR : TsSorted R) (h6 : 6 ≤ R.length)
    (h5 : 5 ≤ R.dropLast.length) :
    klines_to_df (R.filter (fun x => resume_ts R.dropLast h5 ≤ x.ts)) R.dropLast = R := by
  have hlen : R.dropLast.length = R.length - 1 := List.length_dropLast R
  have hi : R.length - 6 < R.length := by omega
  have hr : resume_ts R.dropLast h5 = R[R.length - 6].ts := by
    have hidx : R.dropLast.length - 5 = R.length - 6 := by omega
    simp only [resume_ts, List.get_eq_getElem, List.getElem_dropLast, hidx]
  rw [hr, filter_ge_sorted R hR _ hi, List.drop_eq_getElem_cons hi]
  simp only [klines_to_df]
  have hne : R ≠ [] := by
    intro h
    rw [h] at h6
    simp at h6
  have hlt : R[R.length - 6].ts < R[R.length - 1].ts :=
    tsSorted_getElem_lt hR (by omega) (by omega) (by omega)
  have hlast : ¬ (R.getLast hne).ts < R[R.length - 6].ts := by
    rw [List.getLast_eq_getElem]
    exact not_lt.mpr (le_of_lt hlt)
  rw [filter_lt_dropLast R hne _ hlast, filter_lt_sorted R hR _ hi,
    ← List.drop_eq_getElem_cons hi, List.take_append_drop]

/-! ### Helper lemmas about the data-frame model -/

lemma find?_setCol_list (cols : List (String × List Val)) (c : String) (ws : List Val) :
    ((cols.map fun p => if p.1 == c then (p.1, ws) else p).find? fun p => p.1 == c)
      = (cols.find? fun p => p.1 == c).map fun p => (p.1, ws) := by
  rw [List.find?_map]
  have hpred : ((fun p : String × List Val => p.1 == c) ∘
      fun p => if p.1 == c then (p.1, ws) else p) = fun p => p.1 == c := by
    funext p
    by_cases h : p.1 = c
    · simp [h]
    · simp [h]
  rw [hpred]
  cases hf : cols.find? (fun p => p.1 == c) with
  | none => rfl
  | some q =>
    have hq := List.find?_some hf
    have hq' : q.1 = c := by simpa using hq
    simp [hq']

lemma getCol_setCol_self (f : Frame) (c : String) (vs ws : List Val)
    (h : f.getCol c = some vs) : (f.setCol c ws).getCol c = some ws := by
  simp only [Frame.getCol, Frame.setCol] at h ⊢
  rw [find?_setCol_list]
  cases hf : f.cols.find? (fun p => p.1 == c) with
  | none => rw [hf] at h; simp at h
  | some q => simp

lemma getCol_setCol_ne (f : Frame) (c c' : String) (ws : List Val) (h : c' ≠ c) :
    (f.setCol c ws).getCol c' = f.getCol c' := by
  simp only [Frame.getCol, Frame.setCol]
  congr 1
  rw [List.find?_map]
  have hpred : ((fun p : String × List Val => p.1 == c') ∘
      fun p => if p.1 == c then (p.1, ws) else p) = fun p => p.1 == c' := by
    funext p
    by_cases hp : p.1 = c
    · simp [hp]
    · simp [hp]
  rw [hpred]
  cases hf : f.cols.find? (fun p => p.1 == c') with
  | none => rfl
  | some q =>
    have hq : q.1 = c' := by simpa using List.find?_some hf
    have hqc : ¬ q.1 = c := by
      rw [hq]
      exact h
    simp [hqc]

lemma ilocNeg5_ok (vs : List Val) (h : 5 ≤ vs.length) :
    ilocNeg5 vs = .ok (vs.get ⟨vs.length - 5, by omega⟩) := by
  simp [ilocNeg5, h]

lemma ilocNeg5_err (vs : List Val) (h : vs.length < 5) :
    ilocNeg5 vs = .error .indexError := by
  rw [ilocNeg5, dif_neg]
  omega

/-! ### Helper lemmas about the fetch loop -/

lemma fetchMerge_head (fetch : Int → Option Int → List Bar) (s now cursor : Int)
    (df : List Bar) :
    (fetchMerge fetch s now cursor df).1.head? =
      some ⟨cursor, if now - cursor > oneYear then some (cursor + oneYear) else none, s⟩ := by
  rw [fetchMerge]
  by_cases h : now - cursor > oneYear
  · rw [dif_pos h, if_pos h]
    rfl
  · rw [dif_neg h, if_neg h]
    rfl

lemma fetchMerge_ne_nil (fetch : Int → Option Int → List Bar) (s now cursor : Int)
    (df : List Bar) : (fetchMerge fetch s now cursor df).1 ≠ [] := by
  intro h
  have := fetchMerge_head fetch s now cursor df
  rw [h] at this
  simp at this

lemma fetchMerge_req_start (fetch : Int → Option Int → List Bar) (s now : Int) :
    ∀ (cursor : Int) (df : List Bar) (it : Iter),
      it ∈ (fetchMerge fetch s now cursor df).1 → it.req_start = s := by
  intro cursor df
  induction cursor, df using fetchMerge.induct fetch s now with
  | case1 cursor df h ih =>
    intro it hit
    rw [fetchMerge, dif_pos h] at hit
    rcases List.mem_cons.mp hit with rfl | hit
    · rfl
    · exact ih it hit
  | case2 cursor df h =>
    intro it hit
    rw [fetchMerge, dif_neg h] at hit
    rcases List.mem_singleton.mp hit with rfl
    rfl

lemma fetchMerge_last_open (fetch : Int → Option Int → List Bar) (s now : Int) :
    ∀ (cursor : Int) (df : List Bar) (it : Iter),
      (fetchMerge fetch s now cursor df).1.getLast? = some it → it.win_end = none := by
  intro cursor df
  induction cursor, df using fetchMerge.induct fetch s now with
  | case1 cursor df h ih =>
    intro it hit
    rw [fetchMerge, dif_pos h] at hit
    rw [List.getLast?_cons] at hit
    cases hlast : (fetchMerge fetch s now (cursor + oneYear - oneDay)
        (klines_to_df (fetch s (some (cursor + oneYear))) df)).1.getLast? with
    | none =>
      have hne := fetchMerge_ne_nil fetch s now (cursor + oneYear - oneDay)
        (klines_to_df (fetch s (some (cursor + oneYear))) df)
      rw [List.getLast?_eq_none_iff] at hlast
      exact absurd hlast hne
    | some last =>
      rw [hlast] at hit
      simp only [Option.getD_some, Option.some.injEq] at hit
      rw [← hit]
      exact ih last hlast
  | case2 cursor df h =>
    intro it hit
    rw [fetchMerge, dif_neg h] at hit
    simp only [List.getLast?_singleton, Option.some.injEq] at hit
    rw [← hit]

lemma fetchMerge_adjacent (fetch : Int → Option Int → List Bar) (s now : Int) :
    ∀ (cursor : Int) (df : List Bar) (i : Nat) (a b : Iter),
      (fetchMerge fetch s now cursor df).1[i]? = some a →
      (fetchMerge fetch s now cursor df).1[i + 1]? = some b →
      a.win_end = some (a.win_start + oneYear) ∧
        b.win_start = a.win_start + oneYear - oneDay := by
  intro cursor df
  induction cursor, df using fetchMerge.induct fetch s now with
  | case1 cursor df h ih =>
    intro i a b ha hb
    rw [fetchMerge, dif_pos h] at ha hb
    cases i with
    | zero =>
      simp only [List.getElem?_cons_zero, Option.some.injEq] at ha
      simp only [List.getElem?_cons_succ] at hb
      have hh := fetchMerge_head fetch s now (cursor + oneYear - oneDay)
        (klines_to_df (fetch s (some (cursor + oneYear))) df)
      rw [List.head?_eq_getElem?, hb, Option.some.injEq] at hh
      rw [← ha, hh]
      exact ⟨rfl, rfl⟩
    | succ i =>
      simp only [List.getElem?_cons_succ] at ha hb
      exact ih i a b ha hb
  | case2 cursor df h =>
    intro i a b ha hb
    rw [fetchMerge, dif_neg h] at hb
    simp at hb

lemma fetchMerge_length_le (fetch : Int → Option Int → List Bar) (s now : Int) :
    ∀ (cursor : Int) (df : List Bar),
      (fetchMerge fetch s now cursor df).1.length ≤
        (now - cursor).toNat / 31363200 + 1 := by
  intro cursor df
  induction cursor, df using fetchMerge.induct fetch s now with
  | case1 cursor df h ih =>
    rw [fetchMerge, dif_pos h]
    simp only [List.length_cons]
    have h' : now - cursor > 365 * 86400 := by simpa [oneYear] using h
    have hsub : now - (cursor + oneYear - oneDay) = now - cursor - 364 * 86400 := by
      simp only [oneYear, oneDay]
      ring
    rw [hsub] at ih
    omega
  | case2 cursor df h =>
    rw [fetchMerge, dif_neg h]
    simp

lemma fetchMerge_eval_ex :
    (fetchMerge (fun _ _ => []) 0 (2 * oneYear) 0 []).1 =
      [⟨0, some oneYear, 0⟩, ⟨oneYear - oneDay, some (oneYear - oneDay + oneYear), 0⟩,
        ⟨oneYear - oneDay + oneYear - oneDay, none, 0⟩] := by
  rw [fetchMerge]
  norm_num [oneYear, oneDay, klines_to_df]
  rw [fetchMerge]
  norm_num [oneYear, oneDay, klines_to_df]
  rw [fetchMerge]
  norm_num [oneYear, oneDay, klines_to_df]

/-! ### Claim theorems -/

/-- C3: the computed resume point is the fixed epoch floor (2017-01-01) when
no existing table is found; when an existing table is loaded whose
`timestamp` column has 100 rows [t1..t100], the resume point is the instant
of the 5th-from-last row (t96), and when the timestamps are strictly
increasing it differs from t100 and from t1. -/
theorem C3_resume_point (tc : String) (f : Frame) (vs : List Val)
    (hcol : f.getCol "timestamp" = some vs) (hlen : vs.length = 100)
    (hmono : (vs.map Val.t).Pairwise (· < ·)) :
    oldest_point tc none = .ok ⟨true, epoch2017⟩ ∧
    oldest_point "timestamp" (some f) =
      .ok (to_datetime (vs.get ⟨95, by omega⟩)) ∧
    (vs.get ⟨95, by omega⟩).t ≠ (vs.get ⟨99, by omega⟩).t ∧
    (vs.get ⟨95, by omega⟩).t ≠ (vs.get ⟨0, by omega⟩).t := by
  refine ⟨rfl, ?_, ?_, ?_⟩
  · simp only [oldest_point, parse_time_column, hcol]
    rw [getCol_setCol_self f "timestamp" vs _ hcol]
    show ilocNeg5 (List.map to_datetime vs) = _
    rw [ilocNeg5_ok _ (by simp [hlen])]
    simp only [List.get_eq_getElem, List.getElem_map, List.length_map, Except.ok.injEq]
    congr 2
    omega
  · have h1 := List.pairwise_iff_getElem.mp hmono 95 99
      (by simp [hlen]) (by simp [hlen]) (by omega)
    simp only [List.getElem_map] at h1
    simp only [List.get_eq_getElem]
    exact ne_of_lt h1
  · have h1 := List.pairwise_iff_getElem.mp hmono 0 95
      (by simp [hlen]) (by simp [hlen]) (by omega)
    simp only [List.getElem_map] at h1
    simp only [List.get_eq_getElem]
    exact (ne_of_lt h1).symm

/-- C3 witness: a concrete frame whose `timestamp` column holds 100 strictly
increasing raw values; the resume point is the parsed value of row index 95
(the 5th from last). -/
theorem C3_resume_point_witness :
    oldest_point "timestamp" none = .ok ⟨true, epoch2017⟩ ∧
    oldest_point "timestamp" (some sampleFrame100) = .ok ⟨true, 95⟩ := by
  have h := C3_resume_point "timestamp" sampleFrame100 sampleCol100
    (by rfl) (by decide) (by decide)
  refine ⟨h.1, ?_⟩
  rw [h.2.1]
  rfl

/-- C9: when the existing table is found but its `timestamp` column has
fewer than 5 rows, the positional access `.iloc[-5]` raises `IndexError`;
the job errors and never falls back to the last row or to the epoch
floor. -/
theorem C9_small_table_index_error (tc : String) (f : Frame) (vs ws : List Val)
    (htc : f.getCol tc = some ws) (hcol : f.getCol "timestamp" = some vs)
    (hlen : vs.length < 5) :
    oldest_point tc (some f) = .error .indexError := by
  simp only [oldest_point, parse_time_column, htc]
  by_cases h : tc = "timestamp"
  · subst h
    rw [getCol_setCol_self f "timestamp" ws _ htc]
    rw [htc] at hcol
    have hws : ws = vs := by simpa using hcol
    subst hws
    show ilocNeg5 (List.map to_datetime ws) = _
    exact ilocNeg5_err _ (by simpa using hlen)
  · rw [getCol_setCol_ne f tc "timestamp" _ (fun hh => h hh.symm), hcol]
    exact ilocNeg5_err _ hlen

/-- C9 witness: a 3-row table with `time_column = "timestamp"` makes the
resume computation raise `IndexError`. -/
theorem C9_small_table_index_error_witness :
    oldest_point "timestamp"
        (some ⟨[("timestamp", [⟨false, 1⟩, ⟨false, 2⟩, ⟨false, 3⟩])]⟩) =
      .error .indexError :=
  C9_small_table_index_error "timestamp"
    ⟨[("timestamp", [⟨false, 1⟩, ⟨false, 2⟩, ⟨false, 3⟩])]⟩
    [⟨false, 1⟩, ⟨false, 2⟩, ⟨false, 3⟩] [⟨false, 1⟩, ⟨false, 2⟩, ⟨false, 3⟩]
    (by rfl) (by rfl) (by decide)

/-- C10: the resume computation reads the hard-coded column `"timestamp"`.
When the configured `time_column` differs from `"timestamp"`: if no column
literally named `"timestamp"` exists the branch raises `KeyError`, and when
such a column exists the resume value is taken from that raw column,
bypassing the `to_datetime` parsing that was applied to `time_column`. -/
theorem C10_hardcoded_timestamp_column (tc : String) (f : Frame) (ws : List Val)
    (hne : tc ≠ "timestamp") (htc : f.getCol tc = some ws) :
    (f.getCol "timestamp" = none → oldest_point tc (some f) = .error .keyError) ∧
    (∀ vs, f.getCol "timestamp" = some vs →
      oldest_point tc (some f) = ilocNeg5 vs) := by
  constructor
  · intro hnone
    simp only [oldest_point, parse_time_column, htc]
    rw [getCol_setCol_ne f tc "timestamp" _ (fun hh => hne hh.symm), hnone]
  · intro vs hvs
    simp only [oldest_point, parse_time_column, htc]
    rw [getCol_setCol_ne f tc "timestamp" _ (fun hh => hne hh.symm), hvs]

/-- C10 witness: with `time_column = "time"`, a frame without a `"timestamp"`
column raises `KeyError`; a frame with a raw `"timestamp"` column yields that
column's unparsed (parsed := false) 5th-from-last value. -/
theorem C10_hardcoded_timestamp_column_witness :
    oldest_point "time" (some ⟨[("time", [⟨false, 1⟩])]⟩) = .error .keyError ∧
    oldest_point "time"
        (some ⟨[("time", [⟨false, 1⟩]),
          ("timestamp", [⟨false, 1⟩, ⟨false, 2⟩, ⟨false, 3⟩, ⟨false, 4⟩, ⟨false, 5⟩])]⟩) =
      .ok ⟨false, 1⟩ := by
  constructor
  · exact (C10_hardcoded_timestamp_column "time" ⟨[("time", [⟨false, 1⟩])]⟩
      [⟨false, 1⟩] (by decide) (by rfl)).1 (by rfl)
  · rw [(C10_hardcoded_timestamp_column "time"
      ⟨[("time", [⟨false, 1⟩]),
        ("timestamp", [⟨false, 1⟩, ⟨false, 2⟩, ⟨false, 3⟩, ⟨false, 4⟩, ⟨false, 5⟩])]⟩
      [⟨false, 1⟩] (by decide) (by rfl)).2
      [⟨false, 1⟩, ⟨false, 2⟩, ⟨false, 3⟩, ⟨false, 4⟩, ⟨false, 5⟩] (by rfl)]
    rfl

/-- C6: for every sorted existing table and sorted fetch batch, the merge
keeps the result strictly ordered with no duplicate keys, the row at a
timestamp present in both inputs is the batch's row (the new fetch is
authoritative), and rows of the existing table older than every batch row
are preserved unchanged. -/
theorem C6_merge_contract (df batch : List Bar)
    (hdf : TsSorted df) (hb : TsSorted batch) :
    TsSorted (klines_to_df batch df) ∧
    (klines_to_df batch df).Pairwise (fun a b => a.ts ≠ b.ts) ∧
    (∀ t rb, (rowAt df t).isSome → rowAt batch t = some rb →
      rowAt (klines_to_df batch df) t = some rb) ∧
    (∀ r ∈ df, (∀ b ∈ batch, r.ts < b.ts) → r ∈ klines_to_df batch df) := by
  refine ⟨klines_to_df_sorted hdf hb, ?_, ?_, ?_⟩
  · exact List.Pairwise.imp (fun hab => ne_of_lt hab) (klines_to_df_sorted hdf hb)
  · intro t rb _ hrb
    have hmem : rb ∈ batch := List.mem_of_find?_eq_some hrb
    have hts : rb.ts = t := by simpa using List.find?_some hrb
    rw [klines_to_df_rowAt_batch hb ⟨rb, hmem, hts⟩, hrb]
  · intro r hr hlt
    exact klines_to_df_preserves hr hlt

/-- C6 witness: the existing table holds rows at timestamps 1, 2, 3 and the
batch holds replacement rows at 2, 3 plus a new row at 4; the merged table
is sorted, row 2 carries the batch's payload, and row 1 survives. -/
theorem C6_merge_contract_witness :
    TsSorted (klines_to_df [⟨2, 20⟩, ⟨3, 30⟩, ⟨4, 40⟩] [⟨1, 1⟩, ⟨2, 2⟩, ⟨3, 3⟩]) ∧
    rowAt (klines_to_df [⟨2, 20⟩, ⟨3, 30⟩, ⟨4, 40⟩] [⟨1, 1⟩, ⟨2, 2⟩, ⟨3, 3⟩]) 2 =
      some ⟨2, 20⟩ ∧
    (⟨1, 1⟩ : Bar) ∈ klines_to_df [⟨2, 20⟩, ⟨3, 30⟩, ⟨4, 40⟩] [⟨1, 1⟩, ⟨2, 2⟩, ⟨3, 3⟩] := by
  have h := C6_merge_contract [⟨1, 1⟩, ⟨2, 2⟩, ⟨3, 3⟩] [⟨2, 20⟩, ⟨3, 30⟩, ⟨4, 40⟩]
    (by decide) (by decide)
  exact ⟨h.1, h.2.2.1 2 ⟨2, 20⟩ (by decide) (by decide),
    h.2.2.2 ⟨1, 1⟩ (by decide) (by decide)⟩

/-- C7: the merge is idempotent — merging a sorted batch twice yields the
same table as merging it once.  Consequently a second sync run that sees no
new remote data persists the same table: if run 1 merged the series `R`
(persisting `R.dropLast`), run 2 resumes from the 5th-from-last persisted
row and refetches exactly the rows of `R` from that instant on, and its
persisted table `(klines_to_df batch2 R.dropLast).dropLast` equals run 1's. -/
theorem C7_merge_idempotent :
    (∀ (batch df : List Bar), TsSorted batch →
      klines_to_df batch (klines_to_df batch df) = klines_to_df batch df) ∧
    (∀ (R : List Bar), TsSorted R → 6 ≤ R.length →
      ∀ h5 : 5 ≤ R.dropLast.length,
      (klines_to_df (R.filter fun x => resume_ts R.dropLast h5 ≤ x.ts)
        R.dropLast).dropLast = R.dropLast) := by
  constructor
  · intro batch df hb
    exact klines_to_df_idem hb
  · intro R hR h6 h5
    rw [two_run_merge R hR h6 h5]

/-- C7 witness: idempotence on a concrete batch and table, and the two-run
equality on a concrete 7-row series. -/
theorem C7_merge_idempotent_witness :
    klines_to_df [⟨2, 20⟩, ⟨3, 30⟩] (klines_to_df [⟨2, 20⟩, ⟨3, 30⟩] [⟨1, 1⟩, ⟨2, 2⟩]) =
      klines_to_df [⟨2, 20⟩, ⟨3, 30⟩] [⟨1, 1⟩, ⟨2, 2⟩] ∧
    (klines_to_df
        ([⟨1, 1⟩, ⟨2, 2⟩, ⟨3, 3⟩, ⟨4, 4⟩, ⟨5, 5⟩, ⟨6, 6⟩, ⟨7, 7⟩].filter fun x =>
          resume_ts ([⟨1, 1⟩, ⟨2, 2⟩, ⟨3, 3⟩, ⟨4, 4⟩, ⟨5, 5⟩, ⟨6, 6⟩, ⟨7, 7⟩] :
            List Bar).dropLast (by decide) ≤ x.ts)
        ([⟨1, 1⟩, ⟨2, 2⟩, ⟨3, 3⟩, ⟨4, 4⟩, ⟨5, 5⟩, ⟨6, 6⟩, ⟨7, 7⟩] :
          List Bar).dropLast).dropLast =
      ([⟨1, 1⟩, ⟨2, 2⟩, ⟨3, 3⟩, ⟨4, 4⟩, ⟨5, 5⟩, ⟨6, 6⟩, ⟨7, 7⟩] : List Bar).dropLast := by
  exact ⟨C7_merge_idempotent.1 [⟨2, 20⟩, ⟨3, 30⟩] [⟨1, 1⟩, ⟨2, 2⟩] (by decide),
    C7_merge_idempotent.2 [⟨1, 1⟩, ⟨2, 2⟩, ⟨3, 3⟩, ⟨4, 4⟩, ⟨5, 5⟩, ⟨6, 6⟩, ⟨7, 7⟩]
      (by decide) (by decide) (by decide)⟩

/-- C4: after the window loop, exactly the last row of the merged table is
removed before persisting, unconditionally: the persisted table is the
merged table minus its final row (same leading rows, length one less), a
one-row merged table persists as the empty table (not an error), an empty
merged table persists as empty, and a successful job performs exactly one
write, carrying the trimmed table. -/
theorem C4_trim_last_then_persist (fetch : Int → Option Int → List Bar)
    (s now : Int) (df0 : List Bar) :
    (get_binance_historical_klines fetch s now df0).length =
      (fetchMerge fetch s now s df0).2.length - 1 ∧
    (∀ i, i < (fetchMerge fetch s now s df0).2.length - 1 →
      (get_binance_historical_klines fetch s now df0)[i]? =
        (fetchMerge fetch s now s df0).2[i]?) ∧
    ((fetchMerge fetch s now s df0).2.length = 1 →
      get_binance_historical_klines fetch s now df0 = []) ∧
    ((fetchMerge fetch s now s df0).2 = [] →
      get_binance_historical_klines fetch s now df0 = []) ∧
    (∀ (tc : String) (raises : String → Bool) (fileOf : String → Option Frame)
      (rowsOf : String → List Bar)
      (fetchOf : String → Int → Option Int → List Bar) (q : String) (v : Val),
      raises q = false → oldest_point tc (fileOf q) = .ok v →
      runMain tc raises fileOf rowsOf fetchOf now [⟨some q⟩] =
        [.wrote q (get_binance_historical_klines (fetchOf q) v.t now (rowsOf q))]) := by
  refine ⟨?_, ?_, ?_, ?_, ?_⟩
  · rw [get_binance_historical_klines, List.length_dropLast]
  · intro i hi
    have hi1 : i < (fetchMerge fetch s now s df0).2.dropLast.length := by
      rw [List.length_dropLast]
      exact hi
    have hi2 : i < (fetchMerge fetch s now s df0).2.length := by
      rw [List.length_dropLast] at hi1
      omega
    rw [get_binance_historical_klines, List.getElem?_eq_getElem hi1,
      List.getElem?_eq_getElem hi2, List.getElem_dropLast]
  · intro h1
    rw [get_binance_historical_klines]
    apply List.eq_nil_of_length_eq_zero
    rw [List.length_dropLast, h1]
  · intro h1
    rw [get_binance_historical_klines, h1]
    rfl
  · intro tc raises fileOf rowsOf fetchOf q v hraise hres
    simp only [runMain, hraise, hres]
    rw [if_neg (by simp [hraise])]

/-- C4 witness: with a remote oracle returning a fixed 2-row batch, the
persisted table is the merged table minus its last row, a single-row merged
table persists as empty, and the single-job run writes exactly once. -/
theorem C4_trim_last_then_persist_witness :
    (get_binance_historical_klines (fun _ _ => [⟨1, 1⟩, ⟨2, 2⟩]) 0 0 []).length =
      (fetchMerge (fun _ _ => [⟨1, 1⟩, ⟨2, 2⟩]) 0 0 0 []).2.length - 1 ∧
    (get_binance_historical_klines (fun _ _ => [⟨1, 1⟩]) 0 0 [] = []) ∧
    runMain "timestamp" (fun _ => false) (fun _ => none) (fun _ => [])
        (fun _ _ _ => [⟨1, 1⟩]) 0 [⟨some "A"⟩] =
      [.wrote "A" (get_binance_historical_klines (fun _ _ => [⟨1, 1⟩]) epoch2017 0 [])] := by
  have h1 := C4_trim_last_then_persist (fun _ _ => [⟨1, 1⟩, ⟨2, 2⟩]) 0 0 []
  have h2 := C4_trim_last_then_persist (fun _ _ => [⟨1, 1⟩]) 0 0 []
  refine ⟨h1.1, ?_, ?_⟩
  · refine h2.2.2.1 ?_
    rw [fetchMerge]
    norm_num [oneYear, klines_to_df]
  · exact h2.2.2.2.2 "timestamp" (fun _ => false) (fun _ => none) (fun _ => [])
      (fun _ _ _ => [⟨1, 1⟩]) "A" ⟨true, epoch2017⟩ rfl rfl

/-- C8: the windowed fetch loop terminates on every input: when
`now - start ≤ oneYear` (including a start later than `now`) exactly one
open-ended window is emitted; otherwise the iteration emits a bounded
one-year window and strictly advances the cursor toward `now`; and the
number of iterations is bounded. -/
theorem C8_loop_finite (fetch : Int → Option Int → List Bar)
    (s start now : Int) (df : List Bar) :
    (now - start ≤ oneYear →
      (fetchMerge fetch s now start df).1 = [⟨start, none, s⟩]) ∧
    (now - start > oneYear →
      (fetchMerge fetch s now start df).1 =
        ⟨start, some (start + oneYear), s⟩ ::
          (fetchMerge fetch s now (start + oneYear - oneDay)
            (klines_to_df (fetch s (some (start + oneYear))) df)).1 ∧
      start < start + oneYear - oneDay ∧
      now - (start + oneYear - oneDay) < now - start) ∧
    (fetchMerge fetch s now start df).1.length ≤
      (now - start).toNat / 31363200 + 1 := by
  refine ⟨?_, ?_, fetchMerge_length_le fetch s now start df⟩
  · intro h
    rw [fetchMerge, dif_neg (not_lt.mpr h)]
  · intro h
    refine ⟨?_, ?_, ?_⟩
    · rw [fetchMerge, dif_pos h]
    · simp only [oneYear, oneDay]
      omega
    · simp only [oneYear, oneDay]
      omega

/-- C8 witness: with `now - start = oneYear` the loop emits exactly one
open-ended window; with `now - start = 2 * oneYear` the first iteration
strictly advances the cursor. -/
theorem C8_loop_finite_witness :
    (fetchMerge (fun _ _ => []) 0 oneYear 0 []).1 = [⟨0, none, 0⟩] ∧
    (0 : Int) < 0 + oneYear - oneDay := by
  refine ⟨(C8_loop_finite (fun _ _ => []) 0 0 oneYear []).1 (by norm_num), ?_⟩
  exact ((C8_loop_finite (fun _ _ => []) 0 0 (2 * oneYear) []).2.1
    (by norm_num [oneYear])).2.1

/-- C2 counterexample: with start 0 and now two years later, the first
window ends at `oneYear` but the second window starts at
`oneYear - oneDay`, so adjacent windows do not satisfy
`window[i].end = window[i+1].start`: the claimed no-overlap contiguity fails
(the cursor steps back one day, line 180). -/
theorem C2_counterexample :
    (fetchMerge (fun _ _ => []) 0 (2 * oneYear) 0 []).1[0]?.map Iter.win_end =
      some (some oneYear) ∧
    (fetchMerge (fun _ _ => []) 0 (2 * oneYear) 0 []).1[1]?.map Iter.win_start =
      some (oneYear - oneDay) ∧
    some oneYear ≠ some (oneYear - oneDay) := by
  rw [fetchMerge_eval_ex]
  refine ⟨rfl, rfl, by norm_num [oneYear, oneDay]⟩

/-- C2 amended: the window sequence starts at the requested start instant,
its final window is open-ended (covering through `now`), and each bounded
window spans exactly one year; but adjacent windows overlap by one day —
`window[i+1].start = window[i].end - oneDay` — instead of being contiguous,
so the sequence covers `[start, now)` without gaps yet with one-day
overlaps. -/
theorem C2_amended_windows (fetch : Int → Option Int → List Bar)
    (s now cursor : Int) (df : List Bar) :
    (fetchMerge fetch s now cursor df).1.head?.map Iter.win_start = some cursor ∧
    (∀ it, (fetchMerge fetch s now cursor df).1.getLast? = some it →
      it.win_end = none) ∧
    (∀ (i : Nat) (a b : Iter),
      (fetchMerge fetch s now cursor df).1[i]? = some a →
      (fetchMerge fetch s now cursor df).1[i + 1]? = some b →
      a.win_end = some (a.win_start + oneYear) ∧
      b.win_start = a.win_start + oneYear - oneDay) := by
  refine ⟨?_, fetchMerge_last_open fetch s now cursor df,
    fetchMerge_adjacent fetch s now cursor df⟩
  rw [fetchMerge_head]
  rfl

/-- C2 amended witness: on the two-year example the adjacency with one-day
overlap and the open final window hold at concrete indices. -/
theorem C2_amended_windows_witness :
    (⟨0, some oneYear, 0⟩ : Iter).win_end =
      some ((⟨0, some oneYear, 0⟩ : Iter).win_start + oneYear) ∧
    (⟨oneYear - oneDay, some (oneYear - oneDay + oneYear), 0⟩ : Iter).win_start =
      (⟨0, some oneYear, 0⟩ : Iter).win_start + oneYear - oneDay ∧
    (⟨oneYear - oneDay + oneYear - oneDay, none, 0⟩ : Iter).win_end = none := by
  have h := C2_amended_windows (fun _ _ => []) 0 (2 * oneYear) 0 []
  have h3 := h.2.2 0 ⟨0, some oneYear, 0⟩
    ⟨oneYear - oneDay, some (oneYear - oneDay + oneYear), 0⟩
    (by rw [fetchMerge_eval_ex]; rfl) (by rw [fetchMerge_eval_ex]; rfl)
  have h2 := h.2.1 ⟨oneYear - oneDay + oneYear - oneDay, none, 0⟩
    (by rw [fetchMerge_eval_ex]; rfl)
  exact ⟨h3.1, h3.2, h2⟩

/-- C1 (code bug): the loop passes the unchanged `start_str` argument to
every remote call (line 171), not the current window's start.  At start 0
with now two years later, the second iteration's window starts at
`oneYear - oneDay` while its remote request's start is still 0, so the call
does not request `[window_start, window_end)`. -/
theorem C1_fetch_uses_original_start :
    (fetchMerge (fun _ _ => []) 0 (2 * oneYear) 0 []).1[1]?.map Iter.req_start =
      some 0 ∧
    (fetchMerge (fun _ _ => []) 0 (2 * oneYear) 0 []).1[1]?.map Iter.win_start =
      some (oneYear - oneDay) ∧
    (0 : Int) ≠ oneYear - oneDay := by
  rw [fetchMerge_eval_ex]
  refine ⟨rfl, rfl, by norm_num [oneYear, oneDay]⟩

/-- C5 counterexample: two configured jobs A and B where the remote raises
for A: the run produces only A's abort event — job B is never processed and
nothing is written for it, contradicting the claim that the loop continues
with every remaining sibling job. -/
theorem C5_counterexample :
    runMain "timestamp" (fun q => q == "A") (fun _ => none) (fun _ => [])
        (fun _ _ _ => []) 0 [⟨some "A"⟩, ⟨some "B"⟩] =
      [.fetchErrorAbort "A"] := by
  rfl

/-- C5 amended: a remote error in one job aborts the entire run, not just
that job: jobs before the failing one are processed normally, the failing
job is reported and writes no file, and the jobs after it are not processed
at all.  Moreover no table is ever written for a folder whose remote access
raises. -/
theorem C5_amended_abort_run (tc : String) (raises : String → Bool)
    (fileOf : String → Option Frame) (rowsOf : String → List Bar)
    (fetch : String → Int → Option Int → List Bar) (now : Int) :
    (∀ (pre rest : List DataSource) (j : DataSource) (q : String),
      (∀ j' ∈ pre, ∀ q', j'.folder = some q' → raises q' = false) →
      (∀ j' ∈ pre, ∀ q', j'.folder = some q' →
        ∃ v, oldest_point tc (fileOf q') = .ok v) →
      j.folder = some q → raises q = true →
      runMain tc raises fileOf rowsOf fetch now (pre ++ j :: rest) =
        runMain tc raises fileOf rowsOf fetch now pre ++ [.fetchErrorAbort q]) ∧
    (∀ (jobs : List DataSource) (q : String) (t : List Bar),
      raises q = true →
      JobEvent.wrote q t ∉ runMain tc raises fileOf rowsOf fetch now jobs) := by
  constructor
  · intro pre
    induction pre with
    | nil =>
      intro rest j q _ _ hj hq
      obtain ⟨folder⟩ := j
      cases hj
      simp only [List.nil_append, runMain, hq, if_pos]
    | cons p pre ih =>
      intro rest j q h1 h2 hj hq
      have h1p : ∀ q', p.folder = some q' → raises q' = false :=
        fun q' hq' => h1 p (List.mem_cons_self p pre) q' hq'
      have h2p : ∀ q', p.folder = some q' →
          ∃ v, oldest_point tc (fileOf q') = .ok v :=
        fun q' hq' => h2 p (List.mem_cons_self p pre) q' hq'
      have ihres := ih rest j q
        (fun j' hj' q' hq' => h1 j' (List.mem_cons_of_mem p hj') q' hq')
        (fun j' hj' q' hq' => h2 j' (List.mem_cons_of_mem p hj') q' hq')
        hj hq
      cases hp : p.folder with
      | none =>
        obtain ⟨folder⟩ := p
        cases hp
        simp only [List.cons_append, runMain, List.append_eq, ihres]
      | some q' =>
        obtain ⟨folder⟩ := p
        cases hp
        obtain ⟨v, hv⟩ := h2p q' rfl
        simp only [List.cons_append, runMain, h1p q' rfl, hv, List.append_eq, ihres,
          Bool.false_eq_true, if_false, List.cons_append]
  · intro jobs
    induction jobs with
    | nil =>
      intro q t _ hmem
      simp [runMain] at hmem
    | cons p jobs ih =>
      intro q t hq hmem
      obtain ⟨folder⟩ := p
      cases folder with
      | none =>
        simp only [runMain] at hmem
        rcases List.mem_cons.mp hmem with hhd | htl
        · exact absurd hhd.symm (by simp)
        · exact ih q t hq htl
      | some q' =>
        by_cases hq' : raises q' = true
        · simp only [runMain, if_pos hq'] at hmem
          rcases List.mem_singleton.mp hmem
        · simp only [runMain, if_neg hq'] at hmem
          cases hres : oldest_point tc (fileOf q') with
          | error e =>
            rw [hres] at hmem
            rcases List.mem_singleton.mp hmem
          | ok v =>
            rw [hres] at hmem
            rcases List.mem_cons.mp hmem with hhd | htl
            · have hqq : q = q' := by
                cases hhd
                rfl
              rw [hqq] at hq
              exact hq' hq
            · exact ih q t hq htl

/-- C5 amended witness: on the concrete two-job run with A raising, the run
equals the empty prefix's events followed by A's abort report. -/
theorem C5_amended_abort_run_witness :
    runMain "timestamp" (fun q => q == "A") (fun _ => none) (fun _ => [])
        (fun _ _ _ => []) 0 ([] ++ ⟨some "A"⟩ :: [⟨some "B"⟩]) =
      runMain "timestamp" (fun q => q == "A") (fun _ => none) (fun _ => [])
        (fun _ _ _ => []) 0 [] ++ [.fetchErrorAbort "A"] := by
  exact (C5_amended_abort_run "timestamp" (fun q => q == "A") (fun _ => none)
    (fun _ => []) (fun _ _ _ => []) 0).1 [] [⟨some "B"⟩] ⟨some "A"⟩ "A"
    (by simp) (by simp) rfl rfl

end ITB
